import Mathlib

/-!
Verification development for the multilingual retrieval system
(vector index / ranking engine and retrieval-quality evaluator).

The Python sources are shallowly embedded:
* machine floats become exact numbers (`ℚ` for similarity scores,
  `ℝ` for the logarithm-based nDCG metric);
* numpy arrays become lists (a 2-D array is a list of rows);
* `np.argsort` is modelled as a deterministic sort by the
  lexicographic key (value, original index) — the stable reference
  semantics of an ascending argsort;
* raised exceptions become `Except String`, and the on-disk artifacts
  read by `load` become an explicit `DiskState` with each file either
  absent, corrupt (deserialization raises) or valid.
-/

namespace MLIR

/-- Dot product of two rows, `np.dot` on 1-D slices. -/
def dot (a b : List ℚ) : ℚ :=
  ((a.zip b).map fun p => p.1 * p.2).sum

/-- Ascending comparison key used to model `np.argsort`: position `i`
comes before position `j` when its value is smaller, or when the values
tie and `i ≤ j` (stable tie order of the ascending argsort). -/
def sortKey (v : List ℚ) (i j : ℕ) : Prop :=
  v.getD i 0 < v.getD j 0 ∨ (v.getD i 0 = v.getD j 0 ∧ i ≤ j)

instance (v : List ℚ) : DecidableRel (sortKey v) := fun i j =>
  inferInstanceAs (Decidable (v.getD i 0 < v.getD j 0 ∨ (v.getD i 0 = v.getD j 0 ∧ i ≤ j)))

instance {ε α : Type} [DecidableEq ε] [DecidableEq α] : DecidableEq (Except ε α) := fun a b =>
  match a, b with
  | .ok x, .ok y =>
    decidable_of_iff (x = y) ⟨fun h => h ▸ rfl, fun h => by cases h; rfl⟩
  | .error x, .error y =>
    decidable_of_iff (x = y) ⟨fun h => h ▸ rfl, fun h => by cases h; rfl⟩
  | .ok x, .error y => isFalse fun h => by cases h
  | .error x, .ok y => isFalse fun h => by cases h

instance (v : List ℚ) : IsTotal ℕ (sortKey v) := by
  constructor
  intro i j
  rcases lt_trichotomy (v.getD i 0) (v.getD j 0) with h | h | h
  · exact Or.inl (Or.inl h)
  · rcases Nat.le_total i j with hij | hij
    · exact Or.inl (Or.inr ⟨h, hij⟩)
    · exact Or.inr (Or.inr ⟨h.symm, hij⟩)
  · exact Or.inr (Or.inl h)

instance (v : List ℚ) : IsTrans ℕ (sortKey v) := by
  constructor
  intro i j k hij hjk
  rcases hij with h1 | ⟨e1, le1⟩
  · rcases hjk with h2 | ⟨e2, _⟩
    · exact Or.inl (h1.trans h2)
    · exact Or.inl (e2 ▸ h1)
  · rcases hjk with h2 | ⟨e2, le2⟩
    · exact Or.inl (e1 ▸ h2)
    · exact Or.inr ⟨e1.trans e2, le1.trans le2⟩

/-- Model of `np.argsort(v)`: the indices `0, …, len v - 1` sorted
ascending by value, ties in ascending index order. -/
def argsort (v : List ℚ) : List ℕ :=
  List.insertionSort (sortKey v) (List.range v.length)

/-- Model of `np.dot(embeddings, query.T).flatten()` for a 2-D query
(row-major flattening of the `n × m` product matrix). -/
def similaritiesOf (embeddings query : List (List ℚ)) : List ℚ :=
  (embeddings.map fun row => query.map fun q => dot row q).flatten

/-- A numpy query array that is either 1-D of length `D` or 2-D. -/
inductive NpQuery where
  | oneD (v : List ℚ)
  | twoD (m : List (List ℚ))

namespace VectorIndex

/-- Embedding of `VectorIndex._search_numpy` (src/indexer.py):
similarities are the flattened `embeddings · queryᵀ`, `top_k` is clamped
to the number of similarity entries, and the result is
`argsort(similarities)[::-1][:top_k]` together with the scores read back
at those positions (`similarities[top_indices]`). -/
def search_numpy (embeddings : List (List ℚ)) (query_embedding : List (List ℚ))
    (top_k : ℕ) : List ℕ × List ℚ :=
  let similarities := similaritiesOf embeddings query_embedding
  let k := min top_k similarities.length
  let top_indices := (argsort similarities).reverse.take k
  let top_scores := top_indices.map fun i => similarities.getD i 0
  (top_indices, top_scores)

/-- Embedding of `VectorIndex.search` (src/indexer.py) for the numpy
backend (no FAISS structure present): raises when no index is loaded,
reshapes a 1-D query to `(1, D)`, and delegates to `search_numpy`. -/
def search (embeddings : Option (List (List ℚ))) (query_embedding : NpQuery)
    (top_k : ℕ) : Except String (List ℕ × List ℚ) :=
  match embeddings with
  | none => .error "No index loaded. Build or load an index first."
  | some emb =>
    let q2 :=
      match query_embedding with
      | .oneD v => [v]
      | .twoD m => m
    .ok (search_numpy emb q2 top_k)

end VectorIndex

namespace Core

/-- Embedding of the simplified `VectorIndex.search` in
src/core/indexer.py: the raise-when-unbuilt check, the 1-D reshape, the
flattened `embeddings · queryᵀ` similarities, the clamp of `top_k`, and
`argsort(similarities)[::-1][:top_k]` with the scores read back, all
inline. -/
def search (embeddings : Option (List (List ℚ))) (query_embedding : NpQuery)
    (top_k : ℕ) : Except String (List ℕ × List ℚ) :=
  match embeddings with
  | none => .error "No index loaded. Build or load an index first."
  | some emb =>
    let q2 :=
      match query_embedding with
      | .oneD v => [v]
      | .twoD m => m
    let similarities := (emb.map fun row => q2.map fun q => dot row q).flatten
    let k := min top_k similarities.length
    let top_indices := (argsort similarities).reverse.take k
    let top_scores := top_indices.map fun i => similarities.getD i 0
    .ok (top_indices, top_scores)

end Core

/-- Embedding of `calculate_recall_at_k` (src/evaluator.py): `0.0` for an
empty relevant list, else the size of the intersection of the first `k`
retrieved ids (as a set) with the relevant set, divided by the relevant
set's size. -/
def calculate_recall_at_k (retrieved_doc_ids relevant_doc_ids : List String)
    (k : ℕ) : ℚ :=
  if relevant_doc_ids.length = 0 then 0
  else
    (((retrieved_doc_ids.take k).toFinset ∩ relevant_doc_ids.toFinset).card : ℚ) /
      (relevant_doc_ids.toFinset.card : ℚ)

/-- DCG accumulation loop of `calculate_ndcg_at_k` (src/evaluator.py):
walks the first `k` retrieved ids with 1-based rank `i`, adding
`1 / log2 (i + 1)` for each id found in the relevant set. -/
noncomputable def dcgLoop (relevant_doc_ids : List String) :
    List String → ℕ → ℝ
  | [], _ => 0
  | doc_id :: rest, i =>
    (if doc_id ∈ relevant_doc_ids then 1 / Real.logb 2 ((i : ℝ) + 1) else 0) +
      dcgLoop relevant_doc_ids rest (i + 1)

/-- Embedding of `calculate_ndcg_at_k` (src/evaluator.py): `0.0` for an
empty relevant list; otherwise `DCG / IDCG` with
`IDCG = Σ_{i<min(k, len relevant)} 1 / log2 (i + 2)`, guarded by the
`idcg == 0` check. -/
noncomputable def calculate_ndcg_at_k (retrieved_doc_ids relevant_doc_ids : List String)
    (k : ℕ) : ℝ :=
  if relevant_doc_ids.length = 0 then 0
  else
    let dcg := dcgLoop relevant_doc_ids (retrieved_doc_ids.take k) 1
    let idcg := ∑ i ∈ Finset.range (min k relevant_doc_ids.length),
      1 / Real.logb 2 ((i : ℝ) + 2)
    if idcg = 0 then 0 else dcg / idcg

/-- Per-language evaluation report: the two averaged metrics and the
count of successfully scored queries. -/
structure LanguageReport where
  avg_ndcg : ℝ
  avg_recall : ℝ
  num_queries : ℕ

namespace IREvaluator

/-- Embedding of the per-query loop of `IREvaluator.evaluate_language`
(src/evaluator.py): queries without a qrels entry are skipped; a
retrieval failure is caught and the query skipped; otherwise both
metrics are appended and the counter incremented. `qrels` maps a
query id to its relevant doc ids, `retrieve` is the retrieval call on
the query text (an `Except.error` models a raised exception). -/
noncomputable def evalLoop (qrels : String → Option (List String))
    (retrieve : String → Except String (List String)) (ndcg_k recall_k : ℕ) :
    List (String × String) → List ℝ × List ℝ × ℕ
  | [] => ([], [], 0)
  | (query_id, query_text) :: rest =>
    match qrels query_id with
    | none => evalLoop qrels retrieve ndcg_k recall_k rest
    | some relevant_docs =>
      match retrieve query_text with
      | .error _ => evalLoop qrels retrieve ndcg_k recall_k rest
      | .ok retrieved_doc_ids =>
        let acc := evalLoop qrels retrieve ndcg_k recall_k rest
        (calculate_ndcg_at_k retrieved_doc_ids relevant_docs ndcg_k :: acc.1,
          ((calculate_recall_at_k retrieved_doc_ids relevant_docs recall_k : ℚ) : ℝ) ::
            acc.2.1,
          acc.2.2 + 1)

/-- Embedding of `IREvaluator.evaluate_language` (src/evaluator.py):
optionally truncates the query list to `max_queries`, runs the per-query
loop, and reports either all zeros (when nothing was scored) or the
arithmetic means (`np.mean`) of the collected scores. -/
noncomputable def evaluate_language (queries : List (String × String))
    (qrels : String → Option (List String))
    (retrieve : String → Except String (List String))
    (ndcg_k recall_k : ℕ) (max_queries : Option ℕ) : LanguageReport :=
  let qs :=
    match max_queries with
    | none => queries
    | some m => queries.take m
  let acc := evalLoop qrels retrieve ndcg_k recall_k qs
  if acc.1.length = 0 then ⟨0, 0, 0⟩
  else ⟨acc.1.sum / (acc.1.length : ℝ), acc.2.1.sum / (acc.2.1.length : ℝ), acc.2.2⟩

end IREvaluator

/-- The two index backends of src/indexer.py. -/
inductive Backend where
  | numpy
  | faiss
deriving DecidableEq

/-- An on-disk artifact: missing file, file whose deserialization
raises, or a successfully deserializable value. -/
inductive Artifact (α : Type) where
  | absent
  | corrupt
  | valid (contents : α)
deriving DecidableEq

/-- The metadata JSON object written by `VectorIndex.save`
(src/indexer.py). -/
structure Metadata where
  doc_ids : List String
  languages : List String
  doc_texts : List String
  num_documents : ℕ
  embedding_dim : ℕ
  backend : Backend
deriving DecidableEq

/-- The three artifacts in the index directory. -/
structure DiskState where
  embFile : Artifact (List (List ℚ))
  metaFile : Artifact Metadata
  faissFile : Artifact (List (List ℚ))
deriving DecidableEq

/-- The mutable fields of a `VectorIndex` instance touched by `load`. -/
structure IndexState where
  backend : Backend
  embeddings : Option (List (List ℚ))
  faissIndex : Option (List (List ℚ))
  metadata : Metadata
deriving DecidableEq

namespace VectorIndex

/-- Embedding of `VectorIndex.load` (src/indexer.py), CPU path
(`use_gpu = False`). Returns the boolean result together with the
instance state after the call. Absent embeddings or metadata files
return `False` before any mutation; a raising `np.load` is caught with
no field yet assigned; a raising metadata parse is caught *after*
`self.embeddings` was assigned; on success the metadata's recorded
backend overrides a differing configured backend, and for the faiss
backend the native artifact is read when present and readable (with
FAISS installed), and otherwise the structure is rebuilt from the
embeddings — which itself raises (caught, `False`) when FAISS is not
installed. -/
def load (faissAvailable : Bool) (st : IndexState) (disk : DiskState) :
    Bool × IndexState :=
  match disk.embFile, disk.metaFile with
  | .absent, _ => (false, st)
  | _, .absent => (false, st)
  | .corrupt, _ => (false, st)
  | .valid emb, .corrupt => (false, { st with embeddings := some emb })
  | .valid emb, .valid meta =>
    let st1 : IndexState := { st with embeddings := some emb, metadata := meta }
    let st2 : IndexState :=
      if meta.backend ≠ st1.backend then { st1 with backend := meta.backend } else st1
    if st2.backend = .faiss then
      match disk.faissFile, faissAvailable with
      | .valid fidx, true => (true, { st2 with faissIndex := some fidx })
      | .corrupt, true => (false, st2)
      | _, _ =>
        if faissAvailable then (true, { st2 with faissIndex := some emb })
        else (false, st2)
    else (true, st2)

end VectorIndex

/-- The dictionary returned by `get_document_info`. -/
structure DocumentInfo where
  doc_id : String
  language : String
  text : Option String
deriving DecidableEq

/-- Embedding of `VectorIndex.get_document_info` (src/indexer.py):
plain list indexing into `doc_ids` and `languages` (an out-of-range
index raises), with `text` attached only when `doc_texts` is non-empty
and the index is within its length. -/
def get_document_info (meta : Metadata) (index : ℕ) : Except String DocumentInfo :=
  match meta.doc_ids[index]?, meta.languages[index]? with
  | some d, some lang =>
    .ok ⟨d, lang,
      if meta.doc_texts ≠ [] ∧ index < meta.doc_texts.length
      then meta.doc_texts[index]? else none⟩
  | _, _ => .error "IndexOutOfRange"

/-- The selected positions `argsort(v)[::-1][:min k (len v)]`. -/
def topSel (v : List ℚ) (k : ℕ) : List ℕ :=
  (argsort v).reverse.take (min k v.length)

lemma argsort_perm (v : List ℚ) : (argsort v).Perm (List.range v.length) :=
  List.perm_insertionSort _ _

lemma argsort_length (v : List ℚ) : (argsort v).length = v.length := by
  simpa using (argsort_perm v).length_eq

lemma mem_argsort (v : List ℚ) {i : ℕ} : i ∈ argsort v ↔ i < v.length := by
  rw [(argsort_perm v).mem_iff, List.mem_range]

lemma argsort_nodup (v : List ℚ) : (argsort v).Nodup :=
  ((argsort_perm v).symm.nodup (List.nodup_range _))

lemma argsort_sorted (v : List ℚ) : List.Pairwise (sortKey v) (argsort v) :=
  List.sorted_insertionSort _ _

lemma sortKey_le {v : List ℚ} {i j : ℕ} (h : sortKey v i j) :
    v.getD i 0 ≤ v.getD j 0 := by
  rcases h with h | ⟨h, _⟩
  · exact le_of_lt h
  · exact le_of_eq h

lemma search_numpy_eq (emb q : List (List ℚ)) (k : ℕ) :
    VectorIndex.search_numpy emb q k =
      (topSel (similaritiesOf emb q) k,
        (topSel (similaritiesOf emb q) k).map
          fun i => (similaritiesOf emb q).getD i 0) := rfl

lemma topSel_length (v : List ℚ) (k : ℕ) : (topSel v k).length = min k v.length := by
  simp [topSel, argsort_length, Nat.min_assoc]

lemma topSel_sublist (v : List ℚ) (k : ℕ) : (topSel v k).Sublist (argsort v).reverse :=
  List.take_sublist _ _

lemma mem_topSel (v : List ℚ) (k : ℕ) {i : ℕ} (h : i ∈ topSel v k) : i < v.length := by
  have := (topSel_sublist v k).mem h
  rw [List.mem_reverse] at this
  exact (mem_argsort v).mp this

lemma topSel_nodup (v : List ℚ) (k : ℕ) : (topSel v k).Nodup := by
  have h : (argsort v).reverse.Nodup := List.nodup_reverse.mpr (argsort_nodup v)
  exact h.sublist (topSel_sublist v k)

lemma topSel_pairwise (v : List ℚ) (k : ℕ) :
    List.Pairwise (fun i j => sortKey v j i) (topSel v k) :=
  ((List.pairwise_reverse.mpr (argsort_sorted v)).sublist (topSel_sublist v k))

lemma topSel_scores_mono (v : List ℚ) (k : ℕ) :
    List.Pairwise (fun i j => v.getD j 0 ≤ v.getD i 0) (topSel v k) :=
  (topSel_pairwise v k).imp fun h => sortKey_le h

lemma topSel_exhaustive (v : List ℚ) (k : ℕ) {i : ℕ} (hi : i < v.length)
    (hni : i ∉ topSel v k) : ∀ j ∈ topSel v k, v.getD i 0 ≤ v.getD j 0 := by
  intro j hj
  have hrev : List.Pairwise (fun a b => sortKey v b a) (argsort v).reverse :=
    List.pairwise_reverse.mpr (argsort_sorted v)
  have hsplit := List.take_append_drop (min k v.length) (argsort v).reverse
  rw [← hsplit] at hrev
  have hcross := (List.pairwise_append.mp hrev).2.2
  have himem : i ∈ (argsort v).reverse := by
    rw [List.mem_reverse]
    exact (mem_argsort v).mpr hi
  rw [← hsplit, List.mem_append] at himem
  rcases himem with h | h
  · exact absurd h hni
  · exact sortKey_le (hcross j hj i h)

lemma similaritiesOf_single (emb : List (List ℚ)) (q : List ℚ) :
    similaritiesOf emb [q] = emb.map fun row => dot row q := by
  induction emb with
  | nil => rfl
  | cons row rest ih => simp [similaritiesOf] at ih ⊢; exact ih

lemma similaritiesOf_single_getD (emb : List (List ℚ)) (q : List ℚ) {i : ℕ}
    (hi : i < emb.length) :
    (similaritiesOf emb [q]).getD i 0 = dot (emb.getD i []) q := by
  rw [similaritiesOf_single]
  rw [List.getD_eq_getElem?_getD, List.getD_eq_getElem?_getD, List.getElem?_map]
  rw [List.getElem?_eq_getElem hi]
  rfl

/-- C1: for a built index, a query of the index's embedding dimension
and any `top_k`, the numpy-backend `search` succeeds and returns exactly
`min top_k num_documents` `(row_index, score)` pairs; the scores are
non-increasing along the result; every returned score is exactly the
dot product of the stored row at the returned index with the query; all
returned indices are in range; and no non-returned row scores higher
than any returned one (exhaustive exact ranking). -/
theorem search_exact_ranking (emb : List (List ℚ)) (q : List ℚ) (top_k : ℕ)
    (hdim : ∀ row ∈ emb, row.length = q.length) :
    ∃ idxs scores,
      VectorIndex.search (some emb) (.oneD q) top_k = .ok (idxs, scores) ∧
      idxs.length = min top_k emb.length ∧
      scores.length = min top_k emb.length ∧
      scores.Pairwise (· ≥ ·) ∧
      scores = idxs.map (fun i => dot (emb.getD i []) q) ∧
      (∀ i ∈ idxs, i < emb.length) ∧
      (∀ i < emb.length, i ∉ idxs →
        ∀ j ∈ idxs, dot (emb.getD i []) q ≤ dot (emb.getD j []) q) := by
  clear hdim
  set v := similaritiesOf emb [q] with hv
  have hlen : v.length = emb.length := by
    rw [hv, similaritiesOf_single, List.length_map]
  refine ⟨topSel v top_k, (topSel v top_k).map fun i => v.getD i 0, ?_, ?_, ?_, ?_, ?_, ?_, ?_⟩
  · rfl
  · rw [topSel_length, hlen]
  · rw [List.length_map, topSel_length, hlen]
  · rw [List.pairwise_map]
    exact topSel_scores_mono v top_k
  · apply List.map_congr_left
    intro i hi
    exact similaritiesOf_single_getD emb q (hlen ▸ mem_topSel v top_k hi)
  · intro i hi
    exact hlen ▸ mem_topSel v top_k hi
  · intro i hi hni j hj
    have h := topSel_exhaustive v top_k (hlen ▸ hi) hni j hj
    rwa [similaritiesOf_single_getD emb q (hlen ▸ hi),
      similaritiesOf_single_getD emb q (hlen ▸ mem_topSel v top_k hj)] at h

/-- Witness for C1 at a concrete two-document index. -/
theorem search_exact_ranking_witness :
    ∃ idxs scores,
      VectorIndex.search (some [[1, 0], [0, 1]]) (.oneD [1, 0]) 5 = .ok (idxs, scores) ∧
      idxs.length = min 5 2 ∧
      scores.length = min 5 2 ∧
      scores.Pairwise (· ≥ ·) ∧
      scores = idxs.map (fun i => dot (([[1, 0], [0, 1]] : List (List ℚ)).getD i []) [1, 0]) ∧
      (∀ i ∈ idxs, i < 2) ∧
      (∀ i < 2, i ∉ idxs →
        ∀ j ∈ idxs, dot (([[1, 0], [0, 1]] : List (List ℚ)).getD i []) [1, 0] ≤
          dot (([[1, 0], [0, 1]] : List (List ℚ)).getD j []) [1, 0]) :=
  search_exact_ranking [[1, 0], [0, 1]] [1, 0] 5 (by
    intro row hrow
    fin_cases hrow <;> rfl)

/-- C2 as stated is false: with two stored rows `[1]` and `[1]` and the
query `[1]`, both documents tie at score `1`, yet `search` returns row 1
before row 0 — the descending, not ascending, original order. -/
theorem search_tie_order_counterexample :
    VectorIndex.search (some [[1], [1]]) (NpQuery.oneD [1]) 2 = .ok ([1, 0], [1, 1]) ∧
      VectorIndex.search (some [[1], [1]]) (NpQuery.oneD [1]) 2 ≠ .ok ([0, 1], [1, 1]) := by
  constructor
  · norm_num [VectorIndex.search, VectorIndex.search_numpy, similaritiesOf, dot, argsort,
      sortKey, List.insertionSort, List.orderedInsert]
  · intro h
    rw [(by norm_num [VectorIndex.search, VectorIndex.search_numpy, similaritiesOf, dot,
      argsort, sortKey, List.insertionSort, List.orderedInsert] :
      VectorIndex.search (some [[1], [1]]) (NpQuery.oneD [1]) 2 = .ok ([1, 0], [1, 1]))] at h
    simp at h

/-- C2 amended: under the stable-argsort model, `argsort[::-1]` puts
equal-score documents in *descending* original row order: whenever two
returned positions carry equal scores, the earlier returned row index is
the larger one. -/
theorem search_tie_order_descending (emb query : List (List ℚ)) (top_k : ℕ) :
    ((VectorIndex.search_numpy emb query top_k).1).Pairwise
      fun i j => (similaritiesOf emb query).getD i 0 = (similaritiesOf emb query).getD j 0 →
        j < i := by
  rw [search_numpy_eq]
  dsimp only
  have hnd : List.Pairwise (fun a b => a ≠ b) (topSel (similaritiesOf emb query) top_k) :=
    topSel_nodup (similaritiesOf emb query) top_k
  have hp := (topSel_pairwise (similaritiesOf emb query) top_k).and hnd
  refine hp.imp ?_
  rintro a b ⟨hk, hne⟩ heq
  rcases hk with h | ⟨_, hle⟩
  · exact absurd h (by rw [heq]; exact lt_irrefl _)
  · exact lt_of_le_of_ne hle (Ne.symm hne)

/-- C9: the simplified search of src/core/indexer.py and the
numpy-backend search of src/indexer.py compute identical
(indices, scores) results on every input, including the unbuilt-index
failure and the 1-D/2-D query normalization. -/
theorem core_search_refines_indexer (embeddings : Option (List (List ℚ)))
    (query_embedding : NpQuery) (top_k : ℕ) :
    Core.search embeddings query_embedding top_k =
      VectorIndex.search embeddings query_embedding top_k := by
  cases embeddings <;> rfl

/-- C10: a query given as a 1-D vector of length `D` and the same query
given as a `1 × D` 2-D array produce identical search results. -/
theorem search_query_shape_invariant (emb : List (List ℚ)) (q : List ℚ) (top_k : ℕ) :
    VectorIndex.search (some emb) (NpQuery.oneD q) top_k =
      VectorIndex.search (some emb) (NpQuery.twoD [q]) top_k := rfl

/-- C4: `calculate_recall_at_k` returns `0` for an empty relevant list
(not an error); otherwise it returns
`|set(ranked[:k]) ∩ set(relevant)| / |set(relevant)|`; the result always
lies in `[0, 1]`; and an empty ranked list yields `0`. -/
theorem recall_at_k_spec (retrieved relevant : List String) (k : ℕ) :
    calculate_recall_at_k retrieved relevant k =
      (if relevant = [] then 0 else
        (((retrieved.take k).toFinset ∩ relevant.toFinset).card : ℚ) /
          (relevant.toFinset.card : ℚ)) ∧
    0 ≤ calculate_recall_at_k retrieved relevant k ∧
    calculate_recall_at_k retrieved relevant k ≤ 1 ∧
    calculate_recall_at_k [] relevant k = 0 := by
  refine ⟨by simp [calculate_recall_at_k, List.length_eq_zero], ?_, ?_, ?_⟩
  · rw [calculate_recall_at_k]
    split
    · exact le_refl 0
    · positivity
  · rw [calculate_recall_at_k]
    split
    · exact zero_le_one
    · rename_i hne
      rw [List.length_eq_zero] at hne
      have hpos : (0 : ℚ) < (relevant.toFinset.card : ℚ) := by
        have := Finset.card_pos.mpr ((List.toFinset_nonempty_iff relevant).mpr hne)
        exact_mod_cast this
      rw [div_le_one hpos]
      exact_mod_cast Finset.card_le_card (Finset.inter_subset_right)
  · rw [calculate_recall_at_k]
    split
    · rfl
    · simp

/-- The spec's DCG formula, reindexed from ranks `1..min(k, len ranked)`
to `0`-based positions: `rel(i+1) / log2(i+2)` where `rel` is binary
membership of `ranked[i]` in the relevant set. -/
noncomputable def specDCG (retrieved relevant : List String) (k : ℕ) : ℝ :=
  ∑ i ∈ Finset.range (min k retrieved.length),
    (if retrieved.getD i "" ∈ relevant then 1 else 0) / Real.logb 2 ((i : ℝ) + 2)

/-- The spec's IDCG formula: `Σ_{i=1..min(k,|relevant|)} 1/log2(i+1)`,
reindexed to 0-based positions. -/
noncomputable def specIDCG (relevant : List String) (k : ℕ) : ℝ :=
  ∑ i ∈ Finset.range (min k relevant.length), 1 / Real.logb 2 ((i : ℝ) + 2)

/-- Ideal DCG truncated to `m` slots starting at rank `r`. -/
noncomputable def idcgFrom (r m : ℕ) : ℝ :=
  ∑ j ∈ Finset.range m, 1 / Real.logb 2 ((r : ℝ) + (j : ℝ) + 1)

lemma logb_two_pos {x : ℝ} (h : 2 ≤ x) : 0 < Real.logb 2 x :=
  Real.logb_pos one_lt_two (lt_of_lt_of_le one_lt_two h)

lemma discount_nonneg {r j : ℕ} (hr : 1 ≤ r) :
    0 ≤ 1 / Real.logb 2 ((r : ℝ) + (j : ℝ) + 1) := by
  apply le_of_lt
  apply div_pos one_pos
  apply logb_two_pos
  have : (1 : ℝ) ≤ (r : ℝ) := by exact_mod_cast hr
  have hj : (0 : ℝ) ≤ (j : ℝ) := Nat.cast_nonneg j
  linarith

lemma idcgFrom_nonneg {r m : ℕ} (hr : 1 ≤ r) : 0 ≤ idcgFrom r m := by
  apply Finset.sum_nonneg
  intro j _
  exact discount_nonneg hr

lemma idcgFrom_succ (r m : ℕ) :
    idcgFrom r (m + 1) = 1 / Real.logb 2 ((r : ℝ) + 1) + idcgFrom (r + 1) m := by
  rw [idcgFrom, Finset.sum_range_succ', add_comm]
  congr 1
  · norm_num
  · rw [idcgFrom]
    apply Finset.sum_congr rfl
    intro j _
    congr 1
    push_cast
    ring

lemma idcgFrom_anti {r m : ℕ} (hr : 1 ≤ r) : idcgFrom (r + 1) m ≤ idcgFrom r m := by
  apply Finset.sum_le_sum
  intro j _
  apply one_div_le_one_div_of_le
  · apply logb_two_pos
    have : (1 : ℝ) ≤ (r : ℝ) := by exact_mod_cast hr
    have hj : (0 : ℝ) ≤ (j : ℝ) := Nat.cast_nonneg j
    linarith
  · apply Real.logb_le_logb_of_le one_lt_two
    · have : (1 : ℝ) ≤ (r : ℝ) := by exact_mod_cast hr
      have hj : (0 : ℝ) ≤ (j : ℝ) := Nat.cast_nonneg j
      linarith
    · push_cast
      linarith

lemma idcgFrom_mono {r m m' : ℕ} (hr : 1 ≤ r) (h : m ≤ m') :
    idcgFrom r m ≤ idcgFrom r m' := by
  apply Finset.sum_le_sum_of_subset_of_nonneg (Finset.range_subset.mpr h)
  intro j _ _
  exact discount_nonneg hr

lemma dcgLoop_nonneg (relevant : List String) (l : List String) {r : ℕ} (hr : 1 ≤ r) :
    0 ≤ dcgLoop relevant l r := by
  induction l generalizing r with
  | nil => exact le_refl 0
  | cons d ds ih =>
    rw [dcgLoop]
    apply add_nonneg
    · split
      · have := @discount_nonneg r 0 hr
        simpa using this
      · exact le_refl 0
    · exact ih (Nat.le_succ_of_le hr)

lemma dcgLoop_le_idcgFrom (relevant : List String) (l : List String) {r : ℕ}
    (hr : 1 ≤ r) :
    dcgLoop relevant l r ≤
      idcgFrom r (l.filter fun d => decide (d ∈ relevant)).length := by
  induction l generalizing r with
  | nil => simp [dcgLoop, idcgFrom]
  | cons d ds ih =>
    rw [dcgLoop, List.filter_cons]
    by_cases h : d ∈ relevant
    · rw [if_pos h]
      rw [if_pos (by simpa using h)]
      rw [List.length_cons, idcgFrom_succ]
      exact add_le_add_left (ih (Nat.le_succ_of_le hr)) _
    · rw [if_neg h, zero_add]
      rw [if_neg (by simpa using h)]
      exact le_trans (ih (Nat.le_succ_of_le hr)) (idcgFrom_anti hr)

lemma dcgLoop_eq_sum (relevant l : List String) (r : ℕ) :
    dcgLoop relevant l r = ∑ i ∈ Finset.range l.length,
      (if l.getD i "" ∈ relevant then 1 else 0) /
        Real.logb 2 ((r : ℝ) + (i : ℝ) + 1) := by
  induction l generalizing r with
  | nil => simp [dcgLoop]
  | cons d ds ih =>
    rw [dcgLoop, ih (r + 1), List.length_cons, Finset.sum_range_succ']
    conv_lhs => rw [add_comm]
    congr 1
    · apply Finset.sum_congr rfl
      intro i _
      rw [List.getD_cons_succ]
      congr 2
      push_cast
      ring
    · rw [List.getD_cons_zero, ite_div, zero_div]
      by_cases h : d ∈ relevant
      · rw [if_pos h, if_pos h]
        congr 2
        push_cast
        ring
      · rw [if_neg h, if_neg h]

lemma dcg_take_eq_specDCG (retrieved relevant : List String) (k : ℕ) :
    dcgLoop relevant (retrieved.take k) 1 = specDCG retrieved relevant k := by
  rw [dcgLoop_eq_sum, specDCG, List.length_take]
  apply Finset.sum_congr rfl
  intro i hi
  rw [Finset.mem_range, Nat.lt_min] at hi
  have hg : (retrieved.take k).getD i "" = retrieved.getD i "" := by
    rw [List.getD_eq_getElem?_getD, List.getD_eq_getElem?_getD, List.getElem?_take,
      if_pos hi.1]
  rw [hg]
  congr 2
  push_cast
  ring

lemma specIDCG_eq_idcgFrom (relevant : List String) (k : ℕ) :
    specIDCG relevant k = idcgFrom 1 (min k relevant.length) := by
  apply Finset.sum_congr rfl
  intro i _
  congr 2
  push_cast
  ring

lemma specIDCG_pos (relevant : List String) (k : ℕ) (hk : 1 ≤ k)
    (hrel : relevant ≠ []) : 0 < specIDCG relevant k := by
  apply Finset.sum_pos
  · intro i _
    apply div_pos one_pos
    apply logb_two_pos
    have : (0 : ℝ) ≤ (i : ℝ) := Nat.cast_nonneg i
    linarith
  · refine ⟨0, Finset.mem_range.mpr ?_⟩
    rw [Nat.lt_min]
    exact ⟨hk, List.length_pos.mpr hrel⟩

lemma filter_take_le_min (retrieved relevant : List String) (k : ℕ)
    (hnd : retrieved.Nodup) :
    ((retrieved.take k).filter fun d => decide (d ∈ relevant)).length ≤
      min k relevant.length := by
  rw [Nat.le_min]
  constructor
  · calc ((retrieved.take k).filter fun d => decide (d ∈ relevant)).length
        ≤ (retrieved.take k).length := List.length_filter_le _ _
      _ = min k retrieved.length := by rw [List.length_take]
      _ ≤ k := min_le_left _ _
  · have hfn : ((retrieved.take k).filter fun d => decide (d ∈ relevant)).Nodup :=
      (List.Nodup.sublist (List.take_sublist k retrieved) hnd).filter _
    have hsub : ((retrieved.take k).filter fun d => decide (d ∈ relevant)).toFinset ⊆
        relevant.toFinset := by
      intro x hx
      rw [List.mem_toFinset, List.mem_filter] at hx
      rw [List.mem_toFinset]
      exact of_decide_eq_true hx.2
    calc ((retrieved.take k).filter fun d => decide (d ∈ relevant)).length
        = ((retrieved.take k).filter fun d => decide (d ∈ relevant)).toFinset.card :=
          (List.toFinset_card_of_nodup hfn).symm
      _ ≤ relevant.toFinset.card := Finset.card_le_card hsub
      _ ≤ relevant.length := List.toFinset_card_le relevant

/-- C3 (amended): for `k ≥ 1` and a duplicate-free ranked list,
`calculate_ndcg_at_k` equals the spec's `DCG / IDCG` formula (and `0`
for an empty relevant list), and the result lies in `[0, 1]`. Without
the duplicate-free condition the upper bound fails (see the
counterexample on `["a", "a"]`). -/
theorem ndcg_at_k_spec (retrieved relevant : List String) (k : ℕ)
    (hk : 1 ≤ k) (hnd : retrieved.Nodup) :
    calculate_ndcg_at_k retrieved relevant k =
      (if relevant = [] then 0
        else specDCG retrieved relevant k / specIDCG relevant k) ∧
    0 ≤ calculate_ndcg_at_k retrieved relevant k ∧
    calculate_ndcg_at_k retrieved relevant k ≤ 1 := by
  by_cases hrel : relevant = []
  · subst hrel
    refine ⟨by simp [calculate_ndcg_at_k], le_of_eq ?_, ?_⟩
    · simp [calculate_ndcg_at_k]
    · rw [calculate_ndcg_at_k]
      norm_num
  · have hlen : ¬relevant.length = 0 := by
      rw [List.length_eq_zero]
      exact hrel
    have hpos := specIDCG_pos relevant k hk hrel
    have hndcg : calculate_ndcg_at_k retrieved relevant k =
        specDCG retrieved relevant k / specIDCG relevant k := by
      rw [calculate_ndcg_at_k, if_neg hlen]
      show (if specIDCG relevant k = 0 then 0
        else dcgLoop relevant (retrieved.take k) 1 / specIDCG relevant k) = _
      rw [if_neg (ne_of_gt hpos), dcg_take_eq_specDCG]
    have hdcg_nonneg : 0 ≤ specDCG retrieved relevant k := by
      rw [← dcg_take_eq_specDCG]
      exact dcgLoop_nonneg relevant _ (le_refl 1)
    refine ⟨by rw [hndcg, if_neg hrel], ?_, ?_⟩
    · rw [hndcg]
      exact div_nonneg hdcg_nonneg (le_of_lt hpos)
    · rw [hndcg, div_le_one hpos]
      calc specDCG retrieved relevant k
          = dcgLoop relevant (retrieved.take k) 1 := (dcg_take_eq_specDCG _ _ _).symm
        _ ≤ idcgFrom 1 ((retrieved.take k).filter fun d => decide (d ∈ relevant)).length :=
            dcgLoop_le_idcgFrom relevant _ (le_refl 1)
        _ ≤ idcgFrom 1 (min k relevant.length) :=
            idcgFrom_mono (le_refl 1) (filter_take_le_min retrieved relevant k hnd)
        _ = specIDCG relevant k := (specIDCG_eq_idcgFrom relevant k).symm

/-- Witness for C3 (amended) at `ranked = ["a", "b"]`,
`relevant = ["a"]`, `k = 1`. -/
theorem ndcg_at_k_spec_witness :
    calculate_ndcg_at_k ["a", "b"] ["a"] 1 =
      (if (["a"] : List String) = [] then 0
        else specDCG ["a", "b"] ["a"] 1 / specIDCG ["a"] 1) ∧
    0 ≤ calculate_ndcg_at_k ["a", "b"] ["a"] 1 ∧
    calculate_ndcg_at_k ["a", "b"] ["a"] 1 ≤ 1 :=
  ndcg_at_k_spec ["a", "b"] ["a"] 1 (le_refl 1) (by decide)

/-- C3's bound `[0, 1]` is false as stated: a ranked list that repeats a
relevant document exceeds `1` (`ranked = ["a", "a"]`, `relevant = ["a"]`,
`k = 2` gives `1 + 1/log2 3 > 1`). -/
theorem ndcg_gt_one_on_duplicates : 1 < calculate_ndcg_at_k ["a", "a"] ["a"] 2 := by
  have hlog3 : 0 < Real.logb 2 3 := Real.logb_pos one_lt_two (by norm_num)
  have h13 : 0 < 1 / Real.logb 2 3 := by positivity
  simp only [calculate_ndcg_at_k, dcgLoop]
  norm_num [Real.logb_self_eq_one one_lt_two]
  linarith

/-- The queries that `evaluate_language` actually scores: those with a
qrels entry whose retrieval call succeeds, paired as
(retrieved ids, relevant ids). -/
def scoredQueries (qrels : String → Option (List String))
    (retrieve : String → Except String (List String))
    (queries : List (String × String)) : List (List String × List String) :=
  queries.filterMap fun q =>
    match qrels q.1, retrieve q.2 with
    | some relevant, .ok ids => some (ids, relevant)
    | _, _ => none

lemma evalLoop_eq (qrels : String → Option (List String))
    (retrieve : String → Except String (List String)) (ndcg_k recall_k : ℕ)
    (qs : List (String × String)) :
    IREvaluator.evalLoop qrels retrieve ndcg_k recall_k qs =
      ((scoredQueries qrels retrieve qs).map
          fun p => calculate_ndcg_at_k p.1 p.2 ndcg_k,
        (scoredQueries qrels retrieve qs).map
          fun p => ((calculate_recall_at_k p.1 p.2 recall_k : ℚ) : ℝ),
        (scoredQueries qrels retrieve qs).length) := by
  induction qs with
  | nil => rfl
  | cons q rest ih =>
    obtain ⟨qid, qtext⟩ := q
    rw [IREvaluator.evalLoop]
    simp only [scoredQueries, List.filterMap_cons] at ih ⊢
    cases hq : qrels qid with
    | none => simpa [hq] using ih
    | some relevant =>
      cases hr : retrieve qtext with
      | error e => simpa [hq, hr] using ih
      | ok ids => simp [hq, hr, ih]

/-- C5: `evaluate_language` scores exactly the (possibly
`max_queries`-truncated) queries that both have a qrels entry and whose
retrieval succeeds; queries without judgments and queries whose
retrieval raises are excluded from numerator and denominator alike; the
reported metrics are the arithmetic means over the scored queries, and
with zero scored queries the report is `0.0`, `0.0`, `num_queries = 0`. -/
theorem evaluate_language_spec (queries : List (String × String))
    (qrels : String → Option (List String))
    (retrieve : String → Except String (List String))
    (ndcg_k recall_k : ℕ) (max_queries : Option ℕ) :
    IREvaluator.evaluate_language queries qrels retrieve ndcg_k recall_k max_queries =
      (let qs :=
        match max_queries with
        | none => queries
        | some m => queries.take m
      let scored := scoredQueries qrels retrieve qs
      if scored.length = 0 then ⟨0, 0, 0⟩
      else
        ⟨(scored.map fun p => calculate_ndcg_at_k p.1 p.2 ndcg_k).sum /
            (scored.length : ℝ),
          (scored.map fun p => ((calculate_recall_at_k p.1 p.2 recall_k : ℚ) : ℝ)).sum /
            (scored.length : ℝ),
          scored.length⟩) := by
  cases max_queries <;> simp [IREvaluator.evaluate_language, evalLoop_eq]

/-- C6 (amended): `load` returns `false` without raising when either
the embeddings or the metadata artifact is absent (state untouched) or
when the embeddings artifact fails to deserialize (state untouched);
when the embeddings artifact is valid but the metadata artifact fails
to deserialize, `load` returns `false` — there is no distinct
`LoadFailed` signal — and the newly loaded embeddings remain assigned
on the instance (only the metadata is left unchanged). -/
theorem load_failure_behavior (avail : Bool) (st : IndexState)
    (m : Artifact Metadata) (e f : Artifact (List (List ℚ)))
    (emb : List (List ℚ)) :
    VectorIndex.load avail st ⟨.absent, m, f⟩ = (false, st) ∧
    VectorIndex.load avail st ⟨e, .absent, f⟩ = (false, st) ∧
    VectorIndex.load avail st ⟨.corrupt, m, f⟩ = (false, st) ∧
    VectorIndex.load avail st ⟨.valid emb, .corrupt, f⟩ =
      (false, { st with embeddings := some emb }) := by
  refine ⟨?_, ?_, ?_, ?_⟩
  · cases m <;> rfl
  · cases e <;> rfl
  · cases m <;> rfl
  · rfl

/-- C6 as stated is false: on an unbuilt instance, a valid embeddings
artifact next to a corrupt metadata artifact makes `load` return
`false`, yet the partially loaded embeddings are retained — the index is
not left in an unbuilt state. -/
theorem load_retains_partial_state :
    (VectorIndex.load true ⟨.numpy, none, none, ⟨[], [], [], 0, 0, .numpy⟩⟩
        ⟨.valid [[1]], .corrupt, .absent⟩).1 = false ∧
    (VectorIndex.load true ⟨.numpy, none, none, ⟨[], [], [], 0, 0, .numpy⟩⟩
        ⟨.valid [[1]], .corrupt, .absent⟩).2.embeddings = some [[1]] :=
  ⟨rfl, rfl⟩

/-- C7: whenever `load` returns `True`, the instance's active backend
equals the backend recorded in the loaded metadata — a recorded backend
differing from the configured one is adopted (metadata is
authoritative), without raising. -/
theorem load_backend_authoritative (avail : Bool) (st : IndexState) (disk : DiskState)
    (emb : List (List ℚ)) (meta : Metadata)
    (hemb : disk.embFile = .valid emb) (hmeta : disk.metaFile = .valid meta)
    (hok : (VectorIndex.load avail st disk).1 = true) :
    (VectorIndex.load avail st disk).2.backend = meta.backend := by
  obtain ⟨ef, mf, ff⟩ := disk
  have hemb' : ef = .valid emb := hemb
  have hmeta' : mf = .valid meta := hmeta
  subst hemb'
  subst hmeta'
  obtain ⟨sb, se, sf, sm⟩ := st
  revert hok
  cases hbk : meta.backend <;> cases sb <;> cases ff <;> cases avail <;>
    simp_all [VectorIndex.load]

/-- Witness for C7: an instance configured for the faiss backend
loading an index whose metadata records the numpy backend ends up on
the numpy backend. -/
theorem load_backend_authoritative_witness :
    (VectorIndex.load true ⟨.faiss, none, none, ⟨[], [], [], 0, 0, .faiss⟩⟩
        ⟨.valid [[1]], .valid ⟨["a"], ["en"], [], 1, 1, .numpy⟩, .absent⟩).2.backend =
      Backend.numpy :=
  load_backend_authoritative true ⟨.faiss, none, none, ⟨[], [], [], 0, 0, .faiss⟩⟩
    ⟨.valid [[1]], .valid ⟨["a"], ["en"], [], 1, 1, .numpy⟩, .absent⟩
    [[1]] ⟨["a"], ["en"], [], 1, 1, .numpy⟩ rfl rfl rfl

/-- C8: under the build/save invariant that `doc_ids` and `languages`
both have `num_documents` entries, `get_document_info` returns the
document's id, language and optional text for every in-range row index,
and fails with the out-of-range error exactly when the index reaches or
exceeds `num_documents`. -/
theorem get_document_info_spec (meta : Metadata) (index : ℕ)
    (hids : meta.doc_ids.length = meta.num_documents)
    (hlangs : meta.languages.length = meta.num_documents) :
    (index < meta.num_documents →
      get_document_info meta index =
        .ok ⟨meta.doc_ids.getD index "", meta.languages.getD index "",
          if meta.doc_texts ≠ [] ∧ index < meta.doc_texts.length
          then meta.doc_texts[index]? else none⟩) ∧
    (meta.num_documents ≤ index →
      get_document_info meta index = .error "IndexOutOfRange") := by
  constructor
  · intro h
    have h1 : meta.doc_ids[index]? = some (meta.doc_ids.getD index "") := by
      rw [List.getD_eq_getElem?_getD,
        List.getElem?_eq_getElem (show index < meta.doc_ids.length from hids ▸ h)]
      rfl
    have h2 : meta.languages[index]? = some (meta.languages.getD index "") := by
      rw [List.getD_eq_getElem?_getD,
        List.getElem?_eq_getElem (show index < meta.languages.length from hlangs ▸ h)]
      rfl
    rw [get_document_info]
    rw [h1, h2]
  · intro h
    have h1 : meta.doc_ids[index]? = none :=
      List.getElem?_eq_none (by rw [hids]; exact h)
    rw [get_document_info, h1]

/-- Witness for C8 on a one-document metadata record: index 0 succeeds
and index 1 is out of range. -/
theorem get_document_info_spec_witness :
    ((0 : ℕ) < 1 →
      get_document_info ⟨["d1"], ["en"], [], 1, 3, .numpy⟩ 0 =
        .ok ⟨(["d1"] : List String).getD 0 "", (["en"] : List String).getD 0 "",
          if (([] : List String) ≠ []) ∧ 0 < ([] : List String).length
          then ([] : List String)[(0 : ℕ)]? else none⟩) ∧
    ((1 : ℕ) ≤ 0 →
      get_document_info ⟨["d1"], ["en"], [], 1, 3, .numpy⟩ 0 =
        .error "IndexOutOfRange") :=
  get_document_info_spec ⟨["d1"], ["en"], [], 1, 3, .numpy⟩ 0 rfl rfl

example : VectorIndex.search_numpy [[1], [1]] [[1]] 2 = ([1, 0], [1, 1]) := by
  norm_num [VectorIndex.search_numpy, similaritiesOf, dot, argsort, sortKey,
    List.insertionSort, List.orderedInsert]

example : VectorIndex.search_numpy [[1, 0], [0, 1], [1, 1]] [[1, 0]] 2 =
    ([2, 0], [1, 1]) := by
  norm_num [VectorIndex.search_numpy, similaritiesOf, dot, argsort, sortKey,
    List.insertionSort, List.orderedInsert]

example : VectorIndex.search (some [[1], [(2 : ℚ)]]) (.oneD [1]) 1 =
    .ok ([1], [2]) := by
  norm_num [VectorIndex.search, VectorIndex.search_numpy, similaritiesOf, dot, argsort,
    sortKey, List.insertionSort, List.orderedInsert]

end MLIR
